import Mathlib

set_option maxRecDepth 8000

/-!
Shallow embedding of the NetBox DataSource synchronization engine
(src/netbox/core/models/data.py) together with proofs about the claims
of the specification.  File contents are modelled as lists of bytes
(natural numbers), timestamps as natural numbers, and the database as an
explicit list of DataFile rows threaded through the sync algorithm.
-/

/-!
## SHA-256

Modelled from the spec: the repository computes file hashes with
utilities.files.sha256_hash(path).hexdigest(), whose source is not under
src/; the spec states the hash is the SHA-256 digest of the content,
rendered as 64 lowercase hexadecimal characters.  We implement SHA-256
(FIPS 180-4) directly over byte lists.
-/

def w32 (n : Nat) : Nat := n % 4294967296

def rotr (n x : Nat) : Nat := w32 ((x >>> n) ||| (x <<< (32 - n)))

def bsig0 (x : Nat) : Nat := (rotr 2 x) ^^^ (rotr 13 x) ^^^ (rotr 22 x)

def bsig1 (x : Nat) : Nat := (rotr 6 x) ^^^ (rotr 11 x) ^^^ (rotr 25 x)

def ssig0 (x : Nat) : Nat := (rotr 7 x) ^^^ (rotr 18 x) ^^^ (x >>> 3)

def ssig1 (x : Nat) : Nat := (rotr 17 x) ^^^ (rotr 19 x) ^^^ (x >>> 10)

def chOp (x y z : Nat) : Nat := (x &&& y) ^^^ ((x ^^^ 4294967295) &&& z)

def majOp (x y z : Nat) : Nat := (x &&& y) ^^^ (x &&& z) ^^^ (y &&& z)

def shaK : List Nat :=
  [1116352408, 1899447441, 3049323471, 3921009573, 961987163, 1508970993,
   2453635748, 2870763221, 3624381080, 310598401, 607225278, 1426881987,
   1925078388, 2162078206, 2614888103, 3248222580, 3835390401, 4022224774,
   264347078, 604807628, 770255983, 1249150122, 1555081692, 1996064986,
   2554220882, 2821834349, 2952996808, 3210313671, 3336571891, 3584528711,
   113926993, 338241895, 666307205, 773529912, 1294757372, 1396182291,
   1695183700, 1986661051, 2177026350, 2456956037, 2730485921, 2820302411,
   3259730800, 3345764771, 3516065817, 3600352804, 4094571909, 275423344,
   430227734, 506948616, 659060556, 883997877, 958139571, 1322822218,
   1537002063, 1747873779, 1955562222, 2024104815, 2227730452, 2361852424,
   2428436474, 2756734187, 3204031479, 3329325298]

structure Sha8 where
  a : Nat
  b : Nat
  c : Nat
  d : Nat
  e : Nat
  f : Nat
  g : Nat
  hh : Nat
  deriving DecidableEq

def shaInit : Sha8 :=
  ⟨1779033703, 3144134277, 1013904242, 2773480762, 1359893119, 2600822924, 528734635, 1541459225⟩

def toBE8 (n : Nat) : List Nat :=
  [n / 72057594037927936 % 256, n / 281474976710656 % 256, n / 1099511627776 % 256,
   n / 4294967296 % 256, n / 16777216 % 256, n / 65536 % 256, n / 256 % 256, n % 256]

def padMsg (msg : List Nat) : List Nat :=
  msg ++ 128 :: List.replicate ((119 - msg.length % 64) % 64) 0 ++ toBE8 (8 * msg.length)

def chunks64Go : Nat → List Nat → List (List Nat)
  | 0, _ => []
  | _, [] => []
  | fuel + 1, a :: l => ((a :: l).take 64) :: chunks64Go fuel ((a :: l).drop 64)

def chunks64 (l : List Nat) : List (List Nat) := chunks64Go l.length l

def toWords : List Nat → List Nat
  | b0 :: b1 :: b2 :: b3 :: rest =>
      (b0 % 256 * 16777216 + b1 % 256 * 65536 + b2 % 256 * 256 + b3 % 256) :: toWords rest
  | _ => []

def extendW (ws : List Nat) : List Nat :=
  (List.range 48).foldl (fun acc _ =>
    let n := acc.length
    acc ++ [w32 (ssig1 (acc.getD (n - 2) 0) + acc.getD (n - 7) 0 +
                 ssig0 (acc.getD (n - 15) 0) + acc.getD (n - 16) 0)]) ws

def shaStep (st : Sha8) (kw : Nat × Nat) : Sha8 :=
  let t1 := w32 (st.hh + bsig1 st.e + chOp st.e st.f st.g + kw.1 + kw.2)
  let t2 := w32 (bsig0 st.a + majOp st.a st.b st.c)
  ⟨w32 (t1 + t2), st.a, st.b, st.c, w32 (st.d + t1), st.e, st.f, st.g⟩

def shaCompress (h : Sha8) (chunk : List Nat) : Sha8 :=
  let s := ((shaK.zip (extendW (toWords chunk)))).foldl shaStep h
  ⟨w32 (h.a + s.a), w32 (h.b + s.b), w32 (h.c + s.c), w32 (h.d + s.d),
   w32 (h.e + s.e), w32 (h.f + s.f), w32 (h.g + s.g), w32 (h.hh + s.hh)⟩

def wordBytes (w : Nat) : List Nat :=
  [w / 16777216 % 256, w / 65536 % 256, w / 256 % 256, w % 256]

def sha256bytes (msg : List Nat) : List Nat :=
  let s := (chunks64 (padMsg msg)).foldl shaCompress shaInit
  wordBytes s.a ++ wordBytes s.b ++ wordBytes s.c ++ wordBytes s.d ++
  wordBytes s.e ++ wordBytes s.f ++ wordBytes s.g ++ wordBytes s.hh

def hexDigit (n : Nat) : Char :=
  if n % 16 < 10 then Char.ofNat (48 + n % 16) else Char.ofNat (87 + n % 16)

def byteHex (b : Nat) : List Char := [hexDigit (b / 16), hexDigit b]

def bytesHex : List Nat → List Char
  | [] => []
  | b :: l => byteHex b ++ bytesHex l

def sha256hex (msg : List Nat) : String := String.mk (bytesHex (sha256bytes msg))

example : sha256hex [] = "e3b0c44298fc1c149afbf4c8996fb92427ae41e4649b934ca495991b7852b855" := by
  decide

example : sha256hex [97, 98, 99] =
    "ba7816bf8f01cfea414140de5dae2223b00361a396177a9cb410ff61f20015ad" := by
  decide

/-- Characters allowed in a stored hash, per the model's RegexValidator
regex of DataFile.hash: lowercase hexadecimal digits. -/
def isHexChar (c : Char) : Bool := ('0' ≤ c && c ≤ '9') || ('a' ≤ c && c ≤ 'f')

theorem isHexChar_hexDigit (n : Nat) : isHexChar (hexDigit n) = true := by
  unfold hexDigit
  have h16 : n % 16 < 16 := Nat.mod_lt _ (by omega)
  generalize hm : n % 16 = m at *
  interval_cases m <;> decide

theorem bytesHex_all_hex (l : List Nat) : (bytesHex l).all isHexChar = true := by
  induction l with
  | nil => rfl
  | cons b l ih => simp [bytesHex, byteHex, isHexChar_hexDigit, ih]

theorem bytesHex_length (l : List Nat) : (bytesHex l).length = 2 * l.length := by
  induction l with
  | nil => rfl
  | cons b l ih =>
      simp [bytesHex, byteHex, ih]
      omega

theorem sha256bytes_length (msg : List Nat) : (sha256bytes msg).length = 32 := by
  simp [sha256bytes, wordBytes]

theorem sha256hex_length (msg : List Nat) : (sha256hex msg).length = 64 := by
  have h := bytesHex_length (sha256bytes msg)
  rw [sha256bytes_length] at h
  simpa [sha256hex, String.length] using h

theorem sha256hex_ne_empty (msg : List Nat) : sha256hex msg ≠ "" := by
  intro h
  have := sha256hex_length msg
  rw [h] at this
  simp [String.length] at this

/-!
## Glob matching

Models Python fnmatch.fnmatchcase as used by DataSource._ignore:
case-sensitive shell-glob matching of the whole filename, where a star
matches any character sequence, a question mark any single character,
and square brackets a character class (leading exclamation mark negates;
a bracket with no closing counterpart is a literal character; ranges use
a dash; matching is by code point).  Recursions carry an explicit fuel
argument so that the functions reduce inside the kernel; the fuel chosen
by the wrappers strictly dominates the recursion depth, which consumes
at least one unit of pattern or input per step.
-/

def findClose : List Char → Option (List Char × List Char)
  | [] => none
  | ']' :: rest => some ([], rest)
  | c :: rest =>
      match findClose rest with
      | some (b, r) => some (c :: b, r)
      | none => none

def splitClass (s : List Char) : Option (Bool × List Char × List Char) :=
  let p := match s with
    | '!' :: r => (true, r)
    | _ => (false, s)
  match p.2 with
  | ']' :: r =>
      match findClose r with
      | some (b, rest) => some (p.1, ']' :: b, rest)
      | none => none
  | s1 =>
      match findClose s1 with
      | some (b, rest) => some (p.1, b, rest)
      | none => none

inductive GlobTok where
  | star
  | qmark
  | cls (neg : Bool) (body : List Char)
  | lit (c : Char)
  deriving DecidableEq

def compileGlobGo : Nat → List Char → List GlobTok
  | 0, _ => []
  | _ + 1, [] => []
  | fuel + 1, '*' :: ps => .star :: compileGlobGo fuel ps
  | fuel + 1, '?' :: ps => .qmark :: compileGlobGo fuel ps
  | fuel + 1, '[' :: ps =>
      match splitClass ps with
      | some (neg, body, rest) => .cls neg body :: compileGlobGo fuel rest
      | none => .lit '[' :: compileGlobGo fuel ps
  | fuel + 1, c :: ps => .lit c :: compileGlobGo fuel ps

def compileGlob (pat : List Char) : List GlobTok := compileGlobGo pat.length pat

def inClass (c : Char) : List Char → Bool
  | a :: '-' :: b :: rest => (decide (a ≤ c) && decide (c ≤ b)) || inClass c rest
  | a :: rest => (a == c) || inClass c rest
  | [] => false

def globMatchGo : Nat → List GlobTok → List Char → Bool
  | 0, _, _ => false
  | _ + 1, [], cs => cs.isEmpty
  | fuel + 1, .star :: ps, cs =>
      globMatchGo fuel ps cs ||
        (match cs with
         | [] => false
         | _ :: cs' => globMatchGo fuel (.star :: ps) cs')
  | fuel + 1, .qmark :: ps, cs =>
      match cs with
      | [] => false
      | _ :: cs' => globMatchGo fuel ps cs'
  | fuel + 1, .cls neg body :: ps, cs =>
      match cs with
      | [] => false
      | c :: cs' => (neg != inClass c body) && globMatchGo fuel ps cs'
  | fuel + 1, .lit p :: ps, cs =>
      match cs with
      | [] => false
      | c :: cs' => (p == c) && globMatchGo fuel ps cs'

def fnmatchcase (name pat : String) : Bool :=
  let toks := compileGlob pat.toList
  globMatchGo (toks.length + name.toList.length + 1) toks name.toList

example : fnmatchcase "b.tmp" "*.tmp" = true := by decide

example : fnmatchcase "notes.txt" "*.txt" = true := by decide

example : fnmatchcase "notes.TXT" "*.txt" = false := by decide

example : fnmatchcase "a.txt" "*.tmp" = false := by decide

example : fnmatchcase "ab" "a?" = true := by decide

example : fnmatchcase "ab" "a[a-c]" = true := by decide

example : fnmatchcase "ad" "a[a-c]" = false := by decide

example : fnmatchcase "ad" "a[!a-c]" = true := by decide

def splitOnNl : List Char → List (List Char)
  | [] => [[]]
  | '\n' :: rest => [] :: splitOnNl rest
  | c :: rest =>
      match splitOnNl rest with
      | l :: ls => (c :: l) :: ls
      | [] => [[c]]

/-- Python str.splitlines restricted to newline separators: like
splitting on the newline character, except that a trailing newline does
not contribute a final empty line. -/
def pySplitlines (s : String) : List String :=
  let parts := (splitOnNl s.toList).map String.mk
  if parts.getLast? = some "" then parts.dropLast else parts

example : pySplitlines ".cache\n*.tmp" = [".cache", "*.tmp"] := by decide

example : pySplitlines "" = [] := by decide

example : pySplitlines "a\n" = ["a"] := by decide

/-!
## Filesystem model

The replica root yielded by the backend is modelled as a flat list of
files, each given by its list of path components relative to the root
together with its content bytes.  os.walk visits every directory of the
tree (DataSource._walk never prunes dir_names, it only skips the
visited directory when its relative path string starts with a dot), so
a file with components ds ++ [name] is considered exactly once, in the
visit of the directory whose relative path is the slash-join of ds;
it is kept when that relative path does not start with a dot and
DataSource._ignore rejects name.  Well-formedness asks that components
are nonempty and slash-free, as on a real filesystem.
-/

abbrev FileTree := List (List String × List Nat)

def joinComps : List String → String
  | [] => ""
  | [c] => c
  | c :: rest => c ++ "/" ++ joinComps rest

/-- os.path.join for the two call sites in data.py: the left operand is
either empty (the walk at the root itself) or a nonempty relative path. -/
def joinRel (p n : String) : String := if p = "" then n else p ++ "/" ++ n

/-- Whether a string starts with a dot, as Python str.startswith yields
for the one-character pattern used in data.py. -/
def headIsDot (s : String) : Bool :=
  match s.toList with
  | c :: _ => c == '.'
  | [] => false

def compOk (c : String) : Bool := !(c = "") && !(c.toList.contains '/')

def FileTree.wf (fs : FileTree) : Bool :=
  fs.all fun e => !e.1.isEmpty && e.1.all compOk

/-- open(os.path.join(source_root, path)) on the modelled tree: the
content of the file whose slash-joined components equal the path, when
one exists. -/
def lookupFile (fs : FileTree) (p : String) : Option (List Nat) :=
  (fs.find? fun e => decide (joinComps e.1 = p)).map Prod.snd

example : lookupFile [(["sub", "x.txt"], [1, 2])] "sub/x.txt" = some [1, 2] := by decide

example : lookupFile [(["sub", "x.txt"], [1, 2])] "sub" = none := by decide

/-!
## Data model (src/netbox/core/models/data.py)
-/

inductive DSStatus where
  | new
  | queued
  | syncing
  | completed
  | failed
  deriving DecidableEq

structure DataSource where
  pk : Nat
  name : String
  type : String
  source_url : String
  status : DSStatus
  enabled : Bool
  ignore_rules : String
  parameters : List (String × String)
  last_synced : Option Nat
  deriving DecidableEq

structure DataFile where
  pk : Nat
  source : Nat
  created : Nat
  last_updated : Nat
  path : String
  size : Nat
  hash : String
  data : List Nat
  deriving DecidableEq

def DataSource.ready_for_sync (self : DataSource) : Bool :=
  self.enabled &&
    !(decide (self.status = DSStatus.queued) || decide (self.status = DSStatus.syncing))

def DataSource._ignore (self : DataSource) (filename : String) : Bool :=
  if headIsDot filename then true
  else (pySplitlines self.ignore_rules).any fun rule => fnmatchcase filename rule

/-- DataSource._walk: every directory of the replica is visited; a
visited directory is skipped when its relative path starts with a dot;
the files of the remaining directories are kept when _ignore rejects
them, joined to the directory's relative path.  The result is a set,
modelled as a deduplicated list. -/
def DataSource._walk (self : DataSource) (root : FileTree) : List String :=
  (root.filterMap fun e =>
    match e.1.getLast? with
    | none => none
    | some file_name =>
        let rel := joinComps e.1.dropLast
        if headIsDot rel then none
        else if self._ignore file_name then none
        else some (joinRel rel file_name)).dedup

def hashValid (h : String) : Bool := decide (h.length = 64) && h.toList.all isHexChar

theorem hashValid_sha256hex (msg : List Nat) : hashValid (sha256hex msg) = true := by
  have hlen := sha256hex_length msg
  have hhex := bytesHex_all_hex (sha256bytes msg)
  simp [hashValid, hlen]
  simpa [sha256hex] using hhex

/-- DataFile.full_clean, restricted to the model's fields: the
RegexValidator on hash (64 lowercase hexadecimal characters) and the
max_length of the path CharField. -/
def DataFile.full_clean_ok (self : DataFile) : Bool :=
  hashValid self.hash && decide (self.path.length ≤ 1000)

/-- DataFile.refresh_from_disk: none models FileNotFoundError raised by
the hash computation when the file is gone; otherwise the pair of the
(possibly updated) record and the is_modified flag. -/
def DataFile.refresh_from_disk (self : DataFile) (source_root : FileTree) (now : Nat) :
    Option (DataFile × Bool) :=
  match lookupFile source_root self.path with
  | none => none
  | some content =>
      let file_hash := sha256hex content
      if file_hash ≠ self.hash then
        some ({self with last_updated := now, size := content.length,
                         hash := file_hash, data := content}, true)
      else
        some (self, false)

/-- DataFile.data_as_string: the UTF-8 decode of the stored bytes is an
external library call, passed in abstractly; none models the None
returned on UnicodeDecodeError. -/
def DataFile.data_as_string (self : DataFile) (decodeUtf8 : List Nat → Option String) :
    Option String :=
  decodeUtf8 self.data

/-- DataFile.get_data: yaml.safe_load applied to data_as_string; the
YAML parser is an external library call, passed in abstractly. -/
def DataFile.get_data {α : Type} (self : DataFile)
    (decodeUtf8 : List Nat → Option String) (yamlSafeLoad : Option String → α) : α :=
  yamlSafeLoad (self.data_as_string decodeUtf8)

/-!
## The sync state machine
-/

inductive SyncExc where
  | syncError
  | fetchError
  | fileNotFound
  | validationError
  deriving DecidableEq

inductive SyncEvent where
  | preSync
  | postSync
  deriving DecidableEq

structure SyncCounts where
  updated : Nat
  deleted : Nat
  created : Nat
  deriving DecidableEq

inductive SyncOutcome where
  | raised (e : SyncExc)
  | finished (counts : SyncCounts)
  deriving DecidableEq

/-- The ambient effects of one sync run: the outcome of backend.fetch
(none models a backend fetch error) and the clock value returned by
timezone.now during the run. -/
structure SyncEnv where
  fetched : Option FileTree
  now : Nat

/-- The persisted state visible when sync returns or raises: the
DataSource row, the DataFile table, the next free primary key, the
signals emitted so far, and the outcome. -/
structure SyncResult where
  source : DataSource
  db : List DataFile
  nextPk : Nat
  events : List SyncEvent
  outcome : SyncOutcome
  deriving DecidableEq

/-- The refresh loop of sync: stage modified records for bulk update
and vanished records' pks for bulk deletion. -/
def stageChanges (fs : FileTree) (now : Nat) : List DataFile → List DataFile × List Nat
  | [] => ([], [])
  | df :: rest =>
      match df.refresh_from_disk fs now with
      | some (df2, true) =>
          let r := stageChanges fs now rest
          (df2 :: r.1, r.2)
      | some (_, false) => stageChanges fs now rest
      | none =>
          let r := stageChanges fs now rest
          (r.1, df.pk :: r.2)

/-- DataFile.objects.bulk_update: replace each table row whose pk is
that of a staged row by the staged row. -/
def bulk_update (db : List DataFile) (ups : List DataFile) : List DataFile :=
  db.map fun df => (ups.find? fun u => decide (u.pk = df.pk)).getD df

/-- DataFile.objects.filter(pk__in=ids).delete(). -/
def bulk_delete (db : List DataFile) (ids : List Nat) : List DataFile :=
  db.filter fun df => decide (df.pk ∉ ids)

/-- The creation loop of sync: build a fresh record per new path,
populate it from disk, validate it.  FileNotFoundError from the refresh
is not caught here; a validation failure aborts the run. -/
def createNew (fs : FileTree) (now : Nat) (srcPk : Nat) :
    List String → Except SyncExc (List DataFile)
  | [] => .ok []
  | p :: rest =>
      let df0 : DataFile :=
        { pk := 0, source := srcPk, created := now, last_updated := 0,
          path := p, size := 0, hash := "", data := [] }
      match df0.refresh_from_disk fs now with
      | none => .error .fileNotFound
      | some (df, _) =>
          if df.full_clean_ok then
            match createNew fs now srcPk rest with
            | .ok dfs => .ok (df :: dfs)
            | .error e => .error e
          else .error .validationError

/-- DataFile.objects.bulk_create: append the staged rows, with primary
keys assigned by the database in sequence. -/
def assignPks (start : Nat) : List DataFile → List DataFile
  | [] => []
  | df :: rest => {df with pk := start} :: assignPks (start + 1) rest

def bulk_create (db : List DataFile) (start : Nat) (rows : List DataFile) :
    List DataFile × Nat :=
  (db ++ assignPks start rows, start + rows.length)

/-- The related manager self.datafiles: the DataFile rows owned by this
source. -/
def DataSource.datafiles (self : DataSource) (db : List DataFile) : List DataFile :=
  db.filter fun df => decide (df.source = self.pk)

/-- The refresh loop of sync over self.datafiles: the staged bulk
updates (updated_files in the source). -/
def syncUps (self : DataSource) (fs : FileTree) (now : Nat) (db : List DataFile) :
    List DataFile :=
  (stageChanges fs now (self.datafiles db)).1

/-- The refresh loop of sync over self.datafiles: the staged deletions
(deleted_file_ids in the source). -/
def syncDels (self : DataSource) (fs : FileTree) (now : Nat) (db : List DataFile) :
    List Nat :=
  (stageChanges fs now (self.datafiles db)).2

/-- The table after the bulk update and bulk delete steps of sync. -/
def syncDb2 (self : DataSource) (fs : FileTree) (now : Nat) (db : List DataFile) :
    List DataFile :=
  bulk_delete (bulk_update db (syncUps self fs now db)) (syncDels self fs now db)

/-- new_paths in the source: the walk of the replica root minus the
known paths captured from self.datafiles before any mutation.  The walk
is invoked on the instance whose in-memory status was already set to
syncing, as in the source. -/
def syncNewPaths (self : DataSource) (fs : FileTree) (db : List DataFile) :
    List String :=
  (({self with status := DSStatus.syncing})._walk fs).filter fun p =>
    decide (p ∉ ((self.datafiles db).map fun df : DataFile => df.path))

/-- DataSource.sync.  The returned SyncResult is the persisted state at
the moment sync returns or lets an exception escape. -/
def DataSource.sync (self : DataSource) (env : SyncEnv) (db : List DataFile)
    (nextPk : Nat) : SyncResult :=
  if !self.ready_for_sync then
    ⟨self, db, nextPk, [], .raised .syncError⟩
  else
    let events := [SyncEvent.preSync]
    let self1 := {self with status := DSStatus.syncing}
    match env.fetched with
    | none => ⟨self1, db, nextPk, events, .raised .fetchError⟩
    | some local_path =>
        let updated_files := syncUps self local_path env.now db
        let deleted_file_ids := syncDels self local_path env.now db
        let db1 := bulk_update db updated_files
        let db2 := bulk_delete db1 deleted_file_ids
        let deleted_count := db1.length - db2.length
        let new_paths := syncNewPaths self local_path db
        match createNew local_path env.now self.pk new_paths with
        | .error e => ⟨self1, db2, nextPk, events, .raised e⟩
        | .ok new_datafiles =>
            let r := bulk_create db2 nextPk new_datafiles
            let self2 := {self1 with status := DSStatus.completed,
                                     last_synced := some env.now}
            ⟨self2, r.1, r.2, events ++ [SyncEvent.postSync],
             .finished ⟨updated_files.length, deleted_count, new_datafiles.length⟩⟩

/-!
## Basic lemmas about paths and the walk
-/

theorem data_append (a b : String) : (a ++ b).data = a.data ++ b.data := rfl

theorem str_assoc (a b c : String) : a ++ b ++ c = a ++ (b ++ c) :=
  String.ext (List.append_assoc a.data b.data c.data)

theorem slash_ne_empty (a b : String) : a ++ "/" ++ b ≠ "" := by
  intro h
  replace h := congrArg String.data h
  rw [data_append, data_append] at h
  simp at h

theorem joinComps_cons_cons (c d : String) (l : List String) :
    joinComps (c :: d :: l) = c ++ "/" ++ joinComps (d :: l) := rfl

theorem joinComps_ne_empty (l : List String) (h0 : l ≠ []) (hc : ∀ c ∈ l, c ≠ "") :
    joinComps l ≠ "" := by
  cases l with
  | nil => exact absurd rfl h0
  | cons a t =>
      cases t with
      | nil => simpa [joinComps] using hc a (List.mem_cons_self _ _)
      | cons b t' => exact slash_ne_empty a (joinComps (b :: t'))

theorem joinComps_append_single (l : List String) (f : String)
    (hc : ∀ c ∈ l, c ≠ "") : joinComps (l ++ [f]) = joinRel (joinComps l) f := by
  induction l with
  | nil => simp [joinComps, joinRel]
  | cons a t ih =>
      have ha : a ≠ "" := hc a (List.mem_cons_self _ _)
      have hc' : ∀ c ∈ t, c ≠ "" := fun c h => hc c (List.mem_cons_of_mem _ h)
      cases t with
      | nil => simp [joinComps, joinRel, ha]
      | cons b t' =>
          have hne : joinComps (b :: t') ≠ "" :=
            joinComps_ne_empty _ (by simp) hc'
          have hih := ih hc'
          have hj : joinRel (joinComps (b :: t')) f = joinComps (b :: t') ++ "/" ++ f := by
            rw [joinRel, if_neg hne]
          calc joinComps ((a :: b :: t') ++ [f])
              = a ++ "/" ++ joinComps ((b :: t') ++ [f]) := rfl
            _ = a ++ "/" ++ (joinComps (b :: t') ++ "/" ++ f) := by rw [hih, hj]
            _ = (a ++ "/" ++ joinComps (b :: t')) ++ "/" ++ f := by
                  apply String.ext
                  simp [data_append]
            _ = joinRel (joinComps (a :: b :: t')) f := by
                  have hne2 : ¬joinComps (a :: b :: t') = "" :=
                    slash_ne_empty a (joinComps (b :: t'))
                  rw [joinRel, if_neg hne2]
                  rfl

/-- Joining a directory's relative path with a file name is the join of
the file's full component list, provided no component is empty. -/
theorem joinRel_dropLast (l : List String) (f : String)
    (hl : l.getLast? = some f) (hc : ∀ c ∈ l, c ≠ "") :
    joinRel (joinComps l.dropLast) f = joinComps l := by
  have hne : l ≠ [] := by
    intro h
    subst h
    simp at hl
  have hgl : l.getLast hne = f := by
    rwa [List.getLast?_eq_getLast l hne, Option.some.injEq] at hl
  have hsplit : l.dropLast ++ [f] = l := by
    rw [← hgl]
    exact List.dropLast_append_getLast hne
  have hcd : ∀ c ∈ l.dropLast, c ≠ "" := fun c h => hc c (List.dropLast_subset l h)
  rw [← joinComps_append_single l.dropLast f hcd, hsplit]

theorem compOk_ne_empty {c : String} (h : compOk c = true) : c ≠ "" := by
  simp [compOk] at h
  exact h.1

/-- Every path produced by the walk of a well-formed tree can be opened:
the file exists under the replica root. -/
theorem walk_lookup (self : DataSource) (fs : FileTree)
    (hwf : FileTree.wf fs = true) :
    ∀ p ∈ self._walk fs, ∃ c, lookupFile fs p = some c := by
  intro p hp
  rw [DataSource._walk] at hp
  rw [List.mem_dedup] at hp
  rw [List.mem_filterMap] at hp
  obtain ⟨e, he, heq⟩ := hp
  cases hgl : e.1.getLast? with
  | none => rw [hgl] at heq; simp at heq
  | some fname =>
      rw [hgl] at heq
      simp only at heq
      by_cases hd : headIsDot (joinComps e.1.dropLast) = true
      · rw [if_pos hd] at heq; simp at heq
      · rw [if_neg hd] at heq
        by_cases hi : self._ignore fname = true
        · rw [if_pos hi] at heq; simp at heq
        · rw [if_neg hi] at heq
          simp only [Option.some.injEq] at heq
          have hwfe : (!e.1.isEmpty && e.1.all compOk) = true := by
            rw [FileTree.wf, List.all_eq_true] at hwf
            exact hwf e he
          have hcomp : ∀ c ∈ e.1, c ≠ "" := by
            intro c hcm
            have := (List.all_eq_true.mp (by
              simp only [Bool.and_eq_true] at hwfe
              exact hwfe.2)) c hcm
            exact compOk_ne_empty this
          have hjoin : p = joinComps e.1 := by
            rw [← heq]
            exact joinRel_dropLast e.1 fname hgl hcomp
          have hfind : (fs.find? fun e' => decide (joinComps e'.1 = p)).isSome := by
            rw [List.find?_isSome]
            exact ⟨e, he, by simp [hjoin]⟩
          rw [lookupFile]
          cases hfo : fs.find? fun e' => decide (joinComps e'.1 = p) with
          | none => rw [hfo] at hfind; simp at hfind
          | some ec => exact ⟨ec.2, rfl⟩

/-!
## Lemmas about refresh_from_disk and the staging loop
-/

/-- A DataFile row agreeing with the replica: the file exists and the
stored hash is the digest of its on-disk content. -/
def rowSynced (fs : FileTree) (df : DataFile) : Prop :=
  ∃ c, lookupFile fs df.path = some c ∧ df.hash = sha256hex c

theorem refresh_eq_none_iff (df : DataFile) (fs : FileTree) (now : Nat) :
    df.refresh_from_disk fs now = none ↔ lookupFile fs df.path = none := by
  rw [DataFile.refresh_from_disk]
  cases h : lookupFile fs df.path with
  | none => simp
  | some c =>
      simp only
      split <;> simp

theorem refresh_of_rowSynced {fs : FileTree} {df : DataFile} (now : Nat)
    (h : rowSynced fs df) : df.refresh_from_disk fs now = some (df, false) := by
  obtain ⟨c, hc, hh⟩ := h
  rw [DataFile.refresh_from_disk, hc]
  simp [hh]

theorem refresh_some_inv {df : DataFile} {fs : FileTree} {now : Nat}
    {r : DataFile × Bool} (h : df.refresh_from_disk fs now = some r) :
    ∃ c, lookupFile fs df.path = some c ∧
      ((r = (df, false) ∧ df.hash = sha256hex c) ∨
       (r = ({df with last_updated := now, size := c.length,
                      hash := sha256hex c, data := c}, true) ∧
        sha256hex c ≠ df.hash)) := by
  rw [DataFile.refresh_from_disk] at h
  cases hc : lookupFile fs df.path with
  | none => rw [hc] at h; simp at h
  | some c =>
      rw [hc] at h
      simp only at h
      refine ⟨c, rfl, ?_⟩
      by_cases hne : sha256hex c ≠ df.hash
      · rw [if_pos hne] at h
        right
        exact ⟨(Option.some.injEq _ _ ▸ h).symm, hne⟩
      · rw [if_neg hne] at h
        left
        push_neg at hne
        exact ⟨(Option.some.injEq _ _ ▸ h).symm, hne.symm⟩

/-- Fields of the updated row staged by a modified refresh. -/
theorem refresh_true_fields {df u : DataFile} {fs : FileTree} {now : Nat}
    (h : df.refresh_from_disk fs now = some (u, true)) :
    u.pk = df.pk ∧ u.source = df.source ∧ u.path = df.path ∧ u.created = df.created ∧
    u.last_updated = now ∧
    ∃ c, lookupFile fs df.path = some c ∧ u.hash = sha256hex c ∧
      u.size = c.length ∧ u.data = c := by
  obtain ⟨c, hc, hcase⟩ := refresh_some_inv h
  cases hcase with
  | inl hl => simp at hl
  | inr hr =>
      obtain ⟨hu, -⟩ := hr
      have hu' : u = {df with last_updated := now, size := c.length,
                              hash := sha256hex c, data := c} := by
        have := congrArg Prod.fst hu
        simpa using this
      subst hu'
      exact ⟨rfl, rfl, rfl, rfl, rfl, c, hc, rfl, rfl, rfl⟩

theorem refresh_true_rowSynced {df u : DataFile} {fs : FileTree} {now : Nat}
    (h : df.refresh_from_disk fs now = some (u, true)) : rowSynced fs u := by
  obtain ⟨-, -, hpath, -, -, c, hc, hh, -, -⟩ := refresh_true_fields h
  exact ⟨c, by rw [hpath]; exact hc, hh⟩

theorem stageChanges_of_rowSynced {fs : FileTree} (now : Nat) {l : List DataFile}
    (h : ∀ df ∈ l, rowSynced fs df) : stageChanges fs now l = ([], []) := by
  induction l with
  | nil => rfl
  | cons df rest ih =>
      rw [stageChanges]
      rw [refresh_of_rowSynced now (h df (List.mem_cons_self _ _))]
      exact ih fun d hd => h d (List.mem_cons_of_mem _ hd)

/-- Every staged update comes from refreshing some row of the loop. -/
theorem stageChanges_ups_spec {fs : FileTree} {now : Nat} {l : List DataFile} :
    ∀ u ∈ (stageChanges fs now l).1,
      ∃ df ∈ l, df.refresh_from_disk fs now = some (u, true) := by
  induction l with
  | nil => intro u hu; simp [stageChanges] at hu
  | cons df rest ih =>
      intro u hu
      rw [stageChanges] at hu
      cases hr : df.refresh_from_disk fs now with
      | none =>
          rw [hr] at hu
          obtain ⟨d, hd, hh⟩ := ih u hu
          exact ⟨d, List.mem_cons_of_mem _ hd, hh⟩
      | some p =>
          rw [hr] at hu
          cases p with
          | mk d2 flag =>
              cases flag with
              | true =>
                  simp only [List.mem_cons] at hu
                  cases hu with
                  | inl hl => exact ⟨df, List.mem_cons_self _ _, by rw [hr, hl]⟩
                  | inr hrr =>
                      obtain ⟨d, hd, hh⟩ := ih u hrr
                      exact ⟨d, List.mem_cons_of_mem _ hd, hh⟩
              | false =>
                  obtain ⟨d, hd, hh⟩ := ih u hu
                  exact ⟨d, List.mem_cons_of_mem _ hd, hh⟩

/-- Every staged deletion is the pk of a row whose file vanished. -/
theorem stageChanges_dels_spec {fs : FileTree} {now : Nat} {l : List DataFile} :
    ∀ i ∈ (stageChanges fs now l).2,
      ∃ df ∈ l, df.pk = i ∧ df.refresh_from_disk fs now = none := by
  induction l with
  | nil => intro i hi; simp [stageChanges] at hi
  | cons df rest ih =>
      intro i hi
      rw [stageChanges] at hi
      cases hr : df.refresh_from_disk fs now with
      | none =>
          rw [hr] at hi
          simp only [List.mem_cons] at hi
          cases hi with
          | inl hl => exact ⟨df, List.mem_cons_self _ _, hl.symm, hr⟩
          | inr hrr =>
              obtain ⟨d, hd, hh⟩ := ih i hrr
              exact ⟨d, List.mem_cons_of_mem _ hd, hh⟩
      | some p =>
          rw [hr] at hi
          cases p with
          | mk d2 flag =>
              cases flag with
              | true =>
                  obtain ⟨d, hd, hh⟩ := ih i hi
                  exact ⟨d, List.mem_cons_of_mem _ hd, hh⟩
              | false =>
                  obtain ⟨d, hd, hh⟩ := ih i hi
                  exact ⟨d, List.mem_cons_of_mem _ hd, hh⟩

/-- Each row of the loop is staged for update, left alone, or staged
for deletion. -/
theorem stageChanges_trichotomy {fs : FileTree} {now : Nat} {l : List DataFile} :
    ∀ df ∈ l,
      (∃ u ∈ (stageChanges fs now l).1, df.refresh_from_disk fs now = some (u, true)) ∨
      (df.refresh_from_disk fs now = some (df, false)) ∨
      (df.refresh_from_disk fs now = none ∧ df.pk ∈ (stageChanges fs now l).2) := by
  induction l with
  | nil => intro df h; simp at h
  | cons d rest ih =>
      intro df hdf
      rw [List.mem_cons] at hdf
      rw [stageChanges]
      cases hdf with
      | inl heq =>
          subst heq
          cases hr : df.refresh_from_disk fs now with
          | none => exact Or.inr (Or.inr ⟨rfl, by simp⟩)
          | some p =>
              cases p with
              | mk d2 flag =>
                  cases flag with
                  | true => exact Or.inl ⟨d2, by simp, rfl⟩
                  | false =>
                      obtain ⟨c, hc, hcase⟩ := refresh_some_inv hr
                      cases hcase with
                      | inl hl =>
                          refine Or.inr (Or.inl ?_)
                          exact congrArg _ hl.1
                      | inr hrr => simp at hrr
      | inr hmem =>
          have := ih df hmem
          cases hr : d.refresh_from_disk fs now with
          | none =>
              cases this with
              | inl hl =>
                  obtain ⟨u, hu, hh⟩ := hl
                  exact Or.inl ⟨u, hu, hh⟩
              | inr hrl =>
                  cases hrl with
                  | inl h1 => exact Or.inr (Or.inl h1)
                  | inr h2 => exact Or.inr (Or.inr ⟨h2.1, List.mem_cons_of_mem _ h2.2⟩)
          | some p =>
              cases p with
              | mk d2 flag =>
                  cases flag with
                  | true =>
                      cases this with
                      | inl hl =>
                          obtain ⟨u, hu, hh⟩ := hl
                          exact Or.inl ⟨u, List.mem_cons_of_mem _ hu, hh⟩
                      | inr hrl =>
                          cases hrl with
                          | inl h1 => exact Or.inr (Or.inl h1)
                          | inr h2 => exact Or.inr (Or.inr h2)
                  | false =>
                      cases this with
                      | inl hl => exact Or.inl hl
                      | inr hrl =>
                          cases hrl with
                          | inl h1 => exact Or.inr (Or.inl h1)
                          | inr h2 => exact Or.inr (Or.inr h2)

/-!
## Lemmas about the bulk operations
-/

/-- Primary keys of the database rows are pairwise distinct, as the
database guarantees. -/
def pksNodup (db : List DataFile) : Prop := (db.map fun df => df.pk).Nodup

theorem db_pk_inj {db : List DataFile} (hnd : pksNodup db) :
    ∀ x ∈ db, ∀ y ∈ db, x.pk = y.pk → x = y := by
  intro x hx y hy hxy
  exact List.inj_on_of_nodup_map hnd hx hy hxy

theorem bulk_update_nil (db : List DataFile) : bulk_update db [] = db := by
  simp [bulk_update]

theorem bulk_delete_nil (db : List DataFile) : bulk_delete db [] = db := by
  simp [bulk_delete]

theorem mem_bulk_delete {db : List DataFile} {ids : List Nat} {x : DataFile} :
    x ∈ bulk_delete db ids ↔ x ∈ db ∧ x.pk ∉ ids := by
  simp [bulk_delete]

theorem mem_bulk_update {db ups : List DataFile} {x : DataFile}
    (h : x ∈ bulk_update db ups) :
    ∃ df ∈ db, x.pk = df.pk ∧
      ((x = df ∧ ∀ u ∈ ups, u.pk ≠ df.pk) ∨ x ∈ ups) := by
  rw [bulk_update, List.mem_map] at h
  obtain ⟨df, hdf, hx⟩ := h
  cases hf : ups.find? fun u => decide (u.pk = df.pk) with
  | none =>
      rw [hf] at hx
      refine ⟨df, hdf, by rw [← hx]; rfl, Or.inl ⟨hx.symm, ?_⟩⟩
      intro u hu
      have := List.find?_eq_none.mp hf u hu
      simpa using this
  | some u =>
      rw [hf] at hx
      have hpk : u.pk = df.pk := by
        have := List.find?_some hf
        simpa using this
      have hmem : u ∈ ups := List.mem_of_find?_eq_some hf
      exact ⟨df, hdf, by rw [← hx]; exact hpk, Or.inr (by rw [← hx]; exact hmem)⟩

theorem bulk_update_image {db ups : List DataFile} {df : DataFile} (h : df ∈ db) :
    ((ups.find? fun u => decide (u.pk = df.pk)).getD df) ∈ bulk_update db ups :=
  List.mem_map_of_mem _ h

/-!
## Lemmas about record creation
-/

theorem createNew_ok_spec {fs : FileTree} {now srcPk : Nat} :
    ∀ {ps : List String} {rows : List DataFile},
      createNew fs now srcPk ps = .ok rows →
      (rows.map fun r => r.path) = ps ∧
      ∀ r ∈ rows, r.source = srcPk ∧ r.created = now ∧ r.last_updated = now ∧
        r.full_clean_ok = true ∧
        ∃ c, lookupFile fs r.path = some c ∧ r.hash = sha256hex c ∧
          r.size = c.length ∧ r.data = c := by
  intro ps
  induction ps with
  | nil =>
      intro rows h
      simp only [createNew, Except.ok.injEq] at h
      subst h
      exact ⟨rfl, by intro r hr; simp at hr⟩
  | cons p rest ih =>
      intro rows h
      simp only [createNew] at h
      set df0 : DataFile :=
        { pk := 0, source := srcPk, created := now, last_updated := 0,
          path := p, size := 0, hash := "", data := [] } with hdf0
      cases hr : df0.refresh_from_disk fs now with
      | none => rw [hr] at h; exact Except.noConfusion h
      | some pr =>
          rw [hr] at h
          obtain ⟨df, flag⟩ := pr
          simp only at h
          by_cases hclean : df.full_clean_ok = true
          · rw [if_pos hclean] at h
            cases hrest : createNew fs now srcPk rest with
            | error e => rw [hrest] at h; exact Except.noConfusion h
            | ok dfs =>
                rw [hrest] at h
                injection h with h2
                have hrows : rows = df :: dfs := h2.symm
                subst hrows
                obtain ⟨c, hc, hcase⟩ := refresh_some_inv hr
                have hdf : df = {df0 with last_updated := now, size := c.length,
                                          hash := sha256hex c, data := c} := by
                  cases hcase with
                  | inl hl =>
                      exfalso
                      have h3 := hl.2
                      rw [hdf0] at h3
                      exact sha256hex_ne_empty c h3.symm
                  | inr hrr =>
                      have h4 := congrArg Prod.fst hrr.1
                      simpa using h4
                obtain ⟨hmap, hall⟩ := ih hrest
                constructor
                · simp only [List.map_cons, hmap]
                  rw [hdf]
                · intro r hrmem
                  rw [List.mem_cons] at hrmem
                  cases hrmem with
                  | inl heq =>
                      subst heq
                      refine ⟨by rw [hdf], by rw [hdf], by rw [hdf], hclean,
                        c, ?_, by rw [hdf], by rw [hdf], by rw [hdf]⟩
                      rw [hdf]
                      exact hc
                  | inr hmem => exact hall r hmem
          · rw [if_neg hclean] at h
            exact Except.noConfusion h

theorem assignPks_map_path (start : Nat) (rows : List DataFile) :
    ((assignPks start rows).map fun r => r.path) = rows.map fun r => r.path := by
  induction rows generalizing start with
  | nil => rfl
  | cons r rest ih => simp [assignPks, ih]

theorem assignPks_length (start : Nat) (rows : List DataFile) :
    (assignPks start rows).length = rows.length := by
  induction rows generalizing start with
  | nil => rfl
  | cons r rest ih => simp [assignPks, ih]

theorem mem_assignPks {start : Nat} {rows : List DataFile} {x : DataFile}
    (h : x ∈ assignPks start rows) :
    start ≤ x.pk ∧ x.pk < start + rows.length ∧
    ∃ r0 ∈ rows, x.source = r0.source ∧ x.path = r0.path ∧ x.hash = r0.hash ∧
      x.size = r0.size ∧ x.data = r0.data ∧ x.created = r0.created ∧
      x.last_updated = r0.last_updated := by
  induction rows generalizing start with
  | nil => simp [assignPks] at h
  | cons r rest ih =>
      rw [assignPks, List.mem_cons] at h
      cases h with
      | inl heq =>
          subst heq
          refine ⟨le_refl _, by simp only [List.length_cons]; omega,
            r, List.mem_cons_self _ _, rfl, rfl, rfl, rfl, rfl, rfl, rfl⟩
      | inr hmem =>
          obtain ⟨h1, h2, r0, hr0, hf⟩ := ih hmem
          exact ⟨by omega, by simp only [List.length_cons]; omega,
            r0, List.mem_cons_of_mem _ hr0, hf⟩


/-!
## Shape of one sync run
-/

theorem walk_with_status (self : DataSource) (st : DSStatus) (ls : Option Nat)
    (fs : FileTree) :
    ({self with status := st, last_synced := ls})._walk fs = self._walk fs := rfl

theorem walk_with_status1 (self : DataSource) (st : DSStatus) (fs : FileTree) :
    ({self with status := st})._walk fs = self._walk fs := rfl

theorem datafiles_with_status (self : DataSource) (st : DSStatus) (ls : Option Nat)
    (db : List DataFile) :
    ({self with status := st, last_synced := ls}).datafiles db = self.datafiles db := rfl

theorem ready_completed (self : DataSource) (ls : Option Nat) :
    ({self with status := DSStatus.completed, last_synced := ls}).ready_for_sync
      = self.enabled := by
  simp [DataSource.ready_for_sync]

theorem sync_not_ready (self : DataSource) (env : SyncEnv) (db : List DataFile)
    (npk : Nat) (h : self.ready_for_sync = false) :
    self.sync env db npk = ⟨self, db, npk, [], .raised .syncError⟩ := by
  rw [DataSource.sync, h]
  rfl

theorem sync_ready_none (self : DataSource) (env : SyncEnv) (db : List DataFile)
    (npk : Nat) (h : self.ready_for_sync = true) (hf : env.fetched = none) :
    self.sync env db npk =
      ⟨{self with status := DSStatus.syncing}, db, npk, [.preSync], .raised .fetchError⟩ := by
  rw [DataSource.sync, h, hf]
  rfl

theorem sync_ready_err (self : DataSource) (env : SyncEnv) (db : List DataFile)
    (npk : Nat) (fs : FileTree) (e : SyncExc) (h : self.ready_for_sync = true)
    (hf : env.fetched = some fs)
    (hcn : createNew fs env.now self.pk (syncNewPaths self fs db) = .error e) :
    self.sync env db npk =
      ⟨{self with status := DSStatus.syncing}, syncDb2 self fs env.now db, npk,
       [.preSync], .raised e⟩ := by
  simp only [DataSource.sync, h, hf]
  rw [hcn]
  rfl

theorem sync_ready_ok (self : DataSource) (env : SyncEnv) (db : List DataFile)
    (npk : Nat) (fs : FileTree) (rows : List DataFile)
    (h : self.ready_for_sync = true) (hf : env.fetched = some fs)
    (hcn : createNew fs env.now self.pk (syncNewPaths self fs db) = .ok rows) :
    self.sync env db npk =
      ⟨{self with status := DSStatus.completed, last_synced := some env.now},
       syncDb2 self fs env.now db ++ assignPks npk rows, npk + rows.length,
       [.preSync, .postSync],
       .finished ⟨(syncUps self fs env.now db).length,
         (bulk_update db (syncUps self fs env.now db)).length -
           (syncDb2 self fs env.now db).length,
         rows.length⟩⟩ := by
  simp only [DataSource.sync, h, hf]
  rw [hcn]
  rfl

theorem sync_finished_inv {self : DataSource} {env : SyncEnv} {db : List DataFile}
    {npk : Nat} {cnt : SyncCounts}
    (h : (self.sync env db npk).outcome = .finished cnt) :
    self.ready_for_sync = true ∧
    ∃ fs, env.fetched = some fs ∧
      ∃ rows, createNew fs env.now self.pk (syncNewPaths self fs db) = .ok rows ∧
        self.sync env db npk =
          ⟨{self with status := DSStatus.completed, last_synced := some env.now},
           syncDb2 self fs env.now db ++ assignPks npk rows, npk + rows.length,
           [.preSync, .postSync], .finished cnt⟩ ∧
        cnt = ⟨(syncUps self fs env.now db).length,
               (bulk_update db (syncUps self fs env.now db)).length -
                 (syncDb2 self fs env.now db).length,
               rows.length⟩ := by
  cases hrdy : self.ready_for_sync with
  | false =>
      rw [sync_not_ready self env db npk hrdy] at h
      simp at h
  | true =>
      cases hfo : env.fetched with
      | none =>
          rw [sync_ready_none self env db npk hrdy hfo] at h
          simp at h
      | some fs =>
          cases hcn : createNew fs env.now self.pk (syncNewPaths self fs db) with
          | error e =>
              rw [sync_ready_err self env db npk fs e hrdy hfo hcn] at h
              simp at h
          | ok rows =>
              have hs := sync_ready_ok self env db npk fs rows hrdy hfo hcn
              rw [hs] at h
              have h2 : SyncOutcome.finished
                  ⟨(syncUps self fs env.now db).length,
                   (bulk_update db (syncUps self fs env.now db)).length -
                     (syncDb2 self fs env.now db).length,
                   rows.length⟩ = SyncOutcome.finished cnt := h
              injection h2 with h3
              refine ⟨rfl, fs, rfl, rows, hcn, ?_, h3.symm⟩
              rw [hs, h3]

theorem mem_datafiles {self : DataSource} {db : List DataFile} {x : DataFile} :
    x ∈ self.datafiles db ↔ x ∈ db ∧ x.source = self.pk := by
  simp [DataSource.datafiles]

/-- After a successful run, every row of the source in the new table
agrees with the replica. -/
theorem postRowsSynced (self : DataSource) (fs : FileTree) (db : List DataFile)
    (npk : Nat) (rows : List DataFile) (now : Nat)
    (hok : createNew fs now self.pk (syncNewPaths self fs db) = .ok rows) :
    ∀ x ∈ syncDb2 self fs now db ++ assignPks npk rows,
      x.source = self.pk → rowSynced fs x := by
  intro x hx hsrc
  rw [List.mem_append] at hx
  cases hx with
  | inr hcreated =>
      obtain ⟨-, -, r0, hr0, -, hpath0, hhash0, -, -, -, -⟩ := mem_assignPks hcreated
      obtain ⟨-, hall⟩ := createNew_ok_spec hok
      obtain ⟨-, -, -, -, c, hc, hh, -, -⟩ := hall r0 hr0
      exact ⟨c, by rw [hpath0]; exact hc, by rw [hhash0, hh]⟩
  | inl hdb2 =>
      rw [syncDb2, mem_bulk_delete] at hdb2
      obtain ⟨hbu, hnotdel⟩ := hdb2
      obtain ⟨df, hdf, hpk, hcase⟩ := mem_bulk_update hbu
      cases hcase with
      | inr hups =>
          rw [syncUps] at hups
          obtain ⟨orig, -, hrefresh⟩ := stageChanges_ups_spec x hups
          exact refresh_true_rowSynced hrefresh
      | inl hxdf =>
          obtain ⟨hxeq, hnoups⟩ := hxdf
          subst hxeq
          have hmemdf : x ∈ self.datafiles db := mem_datafiles.mpr ⟨hdf, hsrc⟩
          rcases @stageChanges_trichotomy fs now (self.datafiles db) x hmemdf with
            hupd | hunch | hdel
          · obtain ⟨u, hu, hrefresh⟩ := hupd
            obtain ⟨hupk, -⟩ := refresh_true_fields hrefresh
            exact absurd hupk (hnoups u (by rw [syncUps]; exact hu))
          · obtain ⟨c, hc, hcc⟩ := refresh_some_inv hunch
            cases hcc with
            | inl hl => exact ⟨c, hc, hl.2⟩
            | inr hr =>
                exfalso
                have := congrArg Prod.snd hr.1
                simp at this
          · exfalso
            apply hnotdel
            rw [syncDels]
            exact hdel.2

/-- After a successful run of a well-formed replica, every walked path
is the path of some row of the source in the new table. -/
theorem postWalkCovered (self : DataSource) (fs : FileTree) (db : List DataFile)
    (npk : Nat) (rows : List DataFile) (now : Nat)
    (hwf : FileTree.wf fs = true) (hnd : pksNodup db)
    (hok : createNew fs now self.pk (syncNewPaths self fs db) = .ok rows) :
    ∀ p ∈ self._walk fs,
      ∃ x, x ∈ syncDb2 self fs now db ++ assignPks npk rows ∧
        x.source = self.pk ∧ x.path = p := by
  have hinj : ∀ a ∈ self.datafiles db, ∀ b ∈ self.datafiles db, a.pk = b.pk → a = b := by
    intro a ha b hb hab
    exact db_pk_inj hnd a (mem_datafiles.mp ha).1 b (mem_datafiles.mp hb).1 hab
  have hnotdels : ∀ a ∈ self.datafiles db, a.refresh_from_disk fs now ≠ none →
      a.pk ∉ syncDels self fs now db := by
    intro a ha hne hcontra
    rw [syncDels] at hcontra
    obtain ⟨d, hd, hdpk, hdn⟩ := stageChanges_dels_spec a.pk hcontra
    have : d = a := hinj d hd a ha hdpk
    subst this
    exact hne hdn
  intro p hp
  obtain ⟨c, hc⟩ := walk_lookup self fs hwf p hp
  by_cases hkp : p ∈ (self.datafiles db).map fun df : DataFile => df.path
  · rw [List.mem_map] at hkp
    obtain ⟨orig, horig, horigp⟩ := hkp
    have horigdb : orig ∈ db := (mem_datafiles.mp horig).1
    have horigsrc : orig.source = self.pk := (mem_datafiles.mp horig).2
    rcases @stageChanges_trichotomy fs now (self.datafiles db) orig horig with
      hupd | hunch | hdel
    · obtain ⟨u, hu, hrefresh⟩ := hupd
      obtain ⟨hupk, husrc, hupath, -⟩ := refresh_true_fields hrefresh
      have hfind : ((stageChanges fs now (self.datafiles db)).1.find? fun v =>
          decide (v.pk = orig.pk)) = some u := by
        cases hfo : (stageChanges fs now (self.datafiles db)).1.find? fun v =>
            decide (v.pk = orig.pk) with
        | none =>
            exfalso
            have := List.find?_eq_none.mp hfo u hu
            simp [hupk] at this
        | some u' =>
            have hu'pk : u'.pk = orig.pk := by
              have := List.find?_some hfo
              simpa using this
            have hu'mem : u' ∈ (stageChanges fs now (self.datafiles db)).1 :=
              List.mem_of_find?_eq_some hfo
            obtain ⟨orig', horig', hrefresh'⟩ := stageChanges_ups_spec u' hu'mem
            obtain ⟨hu'pk2, -⟩ := refresh_true_fields hrefresh'
            have : orig' = orig := hinj orig' horig' orig horig (by rw [← hu'pk2, hu'pk])
            subst this
            rw [hrefresh'] at hrefresh
            injection hrefresh with h4
            have h5 : u' = u := congrArg Prod.fst h4
            rw [h5]
      have himg := @bulk_update_image db ((stageChanges fs now (self.datafiles db)).1) orig horigdb
      rw [hfind] at himg
      refine ⟨u, List.mem_append.mpr (Or.inl ?_), by rw [husrc]; exact horigsrc,
        by rw [hupath]; exact horigp⟩
      rw [syncDb2, mem_bulk_delete]
      refine ⟨by rw [syncUps]; exact himg, ?_⟩
      rw [hupk]
      exact hnotdels orig horig (by rw [hrefresh]; exact fun hcon => Option.noConfusion hcon)
    · have hfind : ((stageChanges fs now (self.datafiles db)).1.find? fun v =>
          decide (v.pk = orig.pk)) = none := by
        rw [List.find?_eq_none]
        intro u hu hdec
        obtain ⟨orig', horig', hrefresh'⟩ := stageChanges_ups_spec u hu
        obtain ⟨hu'pk2, -⟩ := refresh_true_fields hrefresh'
        have hupk : u.pk = orig.pk := by simpa using hdec
        have : orig' = orig := hinj orig' horig' orig horig (by rw [← hu'pk2, hupk])
        subst this
        rw [hunch] at hrefresh'
        injection hrefresh' with h4
        have := congrArg Prod.snd h4
        simp at this
      have himg := @bulk_update_image db ((stageChanges fs now (self.datafiles db)).1) orig horigdb
      rw [hfind] at himg
      refine ⟨orig, List.mem_append.mpr (Or.inl ?_), horigsrc, horigp⟩
      rw [syncDb2, mem_bulk_delete]
      refine ⟨by rw [syncUps]; exact himg, ?_⟩
      exact hnotdels orig horig (by rw [hunch]; exact fun hcon => Option.noConfusion hcon)
    · exfalso
      have := (refresh_eq_none_iff orig fs now).mp hdel.1
      rw [horigp] at this
      rw [this] at hc
      exact Option.noConfusion hc
  · have hnew : p ∈ syncNewPaths self fs db := by
      rw [syncNewPaths, List.mem_filter]
      refine ⟨by rw [walk_with_status1]; exact hp, by simpa using hkp⟩
    obtain ⟨hmap, hall⟩ := createNew_ok_spec hok
    have hp2 : p ∈ (assignPks npk rows).map fun r : DataFile => r.path := by
      rw [assignPks_map_path, hmap]
      exact hnew
    rw [List.mem_map] at hp2
    obtain ⟨x, hxmem, hxp⟩ := hp2
    obtain ⟨-, -, r1, hr1, hsrc1, -⟩ := mem_assignPks hxmem
    obtain ⟨hs1, -⟩ := hall r1 hr1
    exact ⟨x, List.mem_append.mpr (Or.inr hxmem), by rw [hsrc1, hs1], hxp⟩

theorem ready_enabled {self : DataSource} (h : self.ready_for_sync = true) :
    self.enabled = true := by
  rw [DataSource.ready_for_sync] at h
  exact (Bool.and_eq_true _ _ |>.mp h).1

theorem createNew_no_syncError {fs : FileTree} {now srcPk : Nat} :
    ∀ {ps : List String} {e : SyncExc},
      createNew fs now srcPk ps = .error e → e ≠ .syncError := by
  intro ps
  induction ps with
  | nil =>
      intro e h
      simp [createNew] at h
  | cons p rest ih =>
      intro e h
      simp only [createNew] at h
      cases hr : (({ pk := 0, source := srcPk, created := now, last_updated := 0, path := p, size := 0, hash := "", data := [] } : DataFile)).refresh_from_disk fs now with
      | none =>
          rw [hr] at h
          injection h with h2
          rw [← h2]
          intro hcon
          exact SyncExc.noConfusion hcon
      | some pr =>
          rw [hr] at h
          obtain ⟨df, flag⟩ := pr
          simp only at h
          by_cases hclean : df.full_clean_ok = true
          · rw [if_pos hclean] at h
            cases hrest : createNew fs now srcPk rest with
            | error e2 =>
                rw [hrest] at h
                injection h with h2
                rw [← h2]
                exact ih hrest
            | ok dfs => rw [hrest] at h; exact Except.noConfusion h
          · rw [if_neg hclean] at h
            injection h with h2
            rw [← h2]
            intro hcon
            exact SyncExc.noConfusion hcon

/-!
## Concrete fixtures used by witnesses and counterexamples
-/

def exSrc : DataSource :=
  { pk := 1, name := "src1", type := "local", source_url := "file:///opt/data",
    status := DSStatus.completed, enabled := true, ignore_rules := ".cache\n*.tmp",
    parameters := [], last_synced := none }

def exFs : FileTree :=
  [(["a.txt"], [104, 105]), (["b.tmp"], [1]), ([".cache"], [2]),
   (["sub", ".hidden", "c.txt"], [3])]

def exSrcOff : DataSource :=
  { pk := 1, name := "src2", type := "local", source_url := "file:///opt/data",
    status := DSStatus.completed, enabled := false, ignore_rules := "",
    parameters := [], last_synced := none }

/-!
## The claims
-/

/-- Claim C6: a filename starting with a dot is always ignored; otherwise
the filename is ignored exactly when it case-sensitively matches at least
one configured rule line under shell-glob semantics; in particular a rule
star-dot-txt matches notes.txt but not notes.TXT. -/
theorem C6_ignore_semantics :
    (∀ (self : DataSource) (filename : String),
      self._ignore filename = true ↔
        (headIsDot filename = true ∨
         ∃ rule ∈ pySplitlines self.ignore_rules, fnmatchcase filename rule = true)) ∧
    fnmatchcase "notes.txt" "*.txt" = true ∧
    fnmatchcase "notes.TXT" "*.txt" = false := by
  refine ⟨?_, by decide, by decide⟩
  intro self filename
  rw [DataSource._ignore]
  by_cases hd : headIsDot filename = true
  · rw [if_pos hd]
    simp [hd]
  · rw [if_neg hd]
    simp [hd, List.any_eq_true]

/-- Claim C4: refresh_from_disk fails with a not-found condition exactly
when the file is absent; when present it returns true and rewrites the
timestamp, size, hash and content exactly when the on-disk digest differs
from the stored hash (an empty stored hash therefore always counts as
modified), and mutates nothing when the digests agree. -/
theorem C4_refresh_contract (df : DataFile) (fs : FileTree) (now : Nat) :
    (df.refresh_from_disk fs now = none ↔ lookupFile fs df.path = none) ∧
    ∀ c, lookupFile fs df.path = some c →
      (sha256hex c = df.hash →
        df.refresh_from_disk fs now = some (df, false)) ∧
      (sha256hex c ≠ df.hash →
        df.refresh_from_disk fs now =
          some ({df with last_updated := now, size := c.length,
                         hash := sha256hex c, data := c}, true)) ∧
      (df.hash = "" → sha256hex c ≠ df.hash) := by
  refine ⟨refresh_eq_none_iff df fs now, ?_⟩
  intro c hc
  refine ⟨fun he => refresh_of_rowSynced now ⟨c, hc, he.symm⟩, fun hne => ?_, fun hemp => ?_⟩
  · simp only [DataFile.refresh_from_disk, hc]
    rw [if_pos hne]
  · rw [hemp]
    exact sha256hex_ne_empty c

def exDf4 : DataFile :=
  { pk := 3, source := 1, created := 0, last_updated := 0, path := "a.txt",
    size := 0, hash := "", data := [] }

theorem C4_witness :
    exDf4.refresh_from_disk exFs 7 =
      some ({exDf4 with last_updated := 7, size := 2, hash := "8f434346648f6b96df89dda901c5176b10a6d83961dd3c1ac88b59b2dc327aa4", data := [104, 105]}, true) := by
  have h := ((C4_refresh_contract exDf4 exFs 7).2 [104, 105] (by decide)).2.1 (by decide)
  rw [h]
  decide

/-- Claim C5: sync raises the precondition SyncError, before any signal
or mutation, exactly when the source is not ready; ready_for_sync holds
exactly when the source is enabled and its status is neither queued nor
syncing. -/
theorem C5_gate (self : DataSource) (env : SyncEnv) (db : List DataFile) (npk : Nat) :
    ((self.sync env db npk).outcome = .raised .syncError ↔
      ¬(self.enabled = true ∧ self.status ≠ DSStatus.queued ∧
        self.status ≠ DSStatus.syncing)) ∧
    (self.ready_for_sync = true ↔
      (self.enabled = true ∧ self.status ≠ DSStatus.queued ∧
       self.status ≠ DSStatus.syncing)) ∧
    ((self.sync env db npk).outcome = .raised .syncError →
      self.sync env db npk = ⟨self, db, npk, [], .raised .syncError⟩) := by
  have hready : (self.ready_for_sync = true) ↔
      (self.enabled = true ∧ self.status ≠ DSStatus.queued ∧
       self.status ≠ DSStatus.syncing) := by
    rw [DataSource.ready_for_sync]
    simp
  have hnever : self.ready_for_sync = true →
      (self.sync env db npk).outcome ≠ .raised .syncError := by
    intro hr
    cases hfo : env.fetched with
    | none =>
        rw [sync_ready_none self env db npk hr hfo]
        simp
    | some fs =>
        cases hcn : createNew fs env.now self.pk (syncNewPaths self fs db) with
        | error e =>
            rw [sync_ready_err self env db npk fs e hr hfo hcn]
            have hne := createNew_no_syncError hcn
            simp [hne]
        | ok rows =>
            rw [sync_ready_ok self env db npk fs rows hr hfo hcn]
            simp
  refine ⟨⟨?_, ?_⟩, hready, ?_⟩
  · intro h
    rw [← hready]
    intro hr
    exact hnever hr h
  · intro h
    have hr : self.ready_for_sync = false := by
      cases hb : self.ready_for_sync with
      | true => exact absurd (hready.mp hb) h
      | false => rfl
    rw [sync_not_ready self env db npk hr]
  · intro h
    have hr : self.ready_for_sync = false := by
      cases hb : self.ready_for_sync with
      | true => exact absurd h (hnever hb)
      | false => rfl
    exact sync_not_ready self env db npk hr

theorem C5_witness :
    (exSrcOff.sync ⟨some exFs, 3⟩ [] 1).outcome = .raised .syncError ∧
    exSrcOff.sync ⟨some exFs, 3⟩ [] 1 = ⟨exSrcOff, [], 1, [], .raised .syncError⟩ := by
  have h := C5_gate exSrcOff ⟨some exFs, 3⟩ [] 1
  have h1 : (exSrcOff.sync ⟨some exFs, 3⟩ [] 1).outcome = .raised .syncError :=
    h.1.mpr (by decide)
  exact ⟨h1, h.2.2 h1⟩

/-- Claim C2: once the gate has passed, every exception escaping sync
leaves the persisted status at syncing; sync itself never writes the
failed status. -/
theorem C2_failure_semantics :
    (∀ (self : DataSource) (env : SyncEnv) (db : List DataFile) (npk : Nat) (e : SyncExc),
      (self.sync env db npk).outcome = .raised e → e ≠ .syncError →
        (self.sync env db npk).source.status = DSStatus.syncing) ∧
    (∀ (self : DataSource) (env : SyncEnv) (db : List DataFile) (npk : Nat),
      (self.sync env db npk).source.status = DSStatus.failed →
        self.status = DSStatus.failed) := by
  constructor
  · intro self env db npk e h hne
    cases hrdy : self.ready_for_sync with
    | false =>
        rw [sync_not_ready self env db npk hrdy] at h
        have h2 : SyncOutcome.raised SyncExc.syncError = SyncOutcome.raised e := h
        injection h2 with h3
        exact absurd h3.symm hne
    | true =>
        cases hfo : env.fetched with
        | none => rw [sync_ready_none self env db npk hrdy hfo]
        | some fs =>
            cases hcn : createNew fs env.now self.pk (syncNewPaths self fs db) with
            | error e2 => rw [sync_ready_err self env db npk fs e2 hrdy hfo hcn]
            | ok rows =>
                rw [sync_ready_ok self env db npk fs rows hrdy hfo hcn] at h
                exact absurd h (by simp)
  · intro self env db npk h
    cases hrdy : self.ready_for_sync with
    | false =>
        rw [sync_not_ready self env db npk hrdy] at h
        exact h
    | true =>
        cases hfo : env.fetched with
        | none =>
            rw [sync_ready_none self env db npk hrdy hfo] at h
            have h2 : DSStatus.syncing = DSStatus.failed := h
            exact DSStatus.noConfusion h2
        | some fs =>
            cases hcn : createNew fs env.now self.pk (syncNewPaths self fs db) with
            | error e2 =>
                rw [sync_ready_err self env db npk fs e2 hrdy hfo hcn] at h
                have h2 : DSStatus.syncing = DSStatus.failed := h
                exact DSStatus.noConfusion h2
            | ok rows =>
                rw [sync_ready_ok self env db npk fs rows hrdy hfo hcn] at h
                have h2 : DSStatus.completed = DSStatus.failed := h
                exact DSStatus.noConfusion h2

theorem C2_witness :
    (exSrc.sync ⟨none, 5⟩ [] 1).outcome = .raised .fetchError ∧
    (exSrc.sync ⟨none, 5⟩ [] 1).source.status = DSStatus.syncing :=
  ⟨by decide, C2_failure_semantics.1 exSrc ⟨none, 5⟩ [] 1 .fetchError (by decide) (by decide)⟩

/-- Claim C1 as stated is false on the code: with ignore rules dot-cache
and star-dot-tmp and the scenario tree, the walk also returns
sub/.hidden/c.txt, because only a subtree whose top relative path
component starts with a dot is skipped, and the top component here is
sub. -/
theorem C1_counterexample :
    ¬((exSrc._walk exFs).toFinset = {"a.txt"}) := by decide

/-- Claim C1 amended: the walk of the scenario returns exactly the path
set of a.txt and sub/.hidden/c.txt — b.tmp is excluded by the glob rule
and .cache by the leading-dot rule, but files below sub/.hidden are kept
since that subtree's top relative component, sub, is not a dot
directory; the path set synced from an empty table is the same. -/
theorem C1_walk_amended :
    (exSrc._walk exFs).toFinset = {"a.txt", "sub/.hidden/c.txt"} ∧
    exSrc._ignore "b.tmp" = true ∧ exSrc._ignore ".cache" = true ∧
    exSrc._ignore "c.txt" = false ∧ exSrc._ignore "a.txt" = false ∧
    (((exSrc.sync ⟨some exFs, 100⟩ [] 1).db.map fun df : DataFile => df.path).toFinset
      = {"a.txt", "sub/.hidden/c.txt"}) := by decide

theorem syncDb2_pk_bound (self : DataSource) (fs : FileTree) (now : Nat)
    (db : List DataFile) (npk : Nat) (hfresh : ∀ df ∈ db, df.pk < npk) :
    ∀ x ∈ syncDb2 self fs now db, x.pk < npk := by
  intro x hx
  rw [syncDb2, mem_bulk_delete] at hx
  obtain ⟨df, hdf, hpk, hcase⟩ := mem_bulk_update hx.1
  cases hcase with
  | inl hl =>
      rw [hpk]
      exact hfresh df hdf
  | inr hups =>
      rw [syncUps] at hups
      obtain ⟨orig, horig, hrefresh⟩ := stageChanges_ups_spec x hups
      obtain ⟨hxpk, -⟩ := refresh_true_fields hrefresh
      rw [hxpk]
      exact hfresh orig (mem_datafiles.mp horig).1

/-- Claim C7: the records created by a successful sync are exactly the
walked paths minus the known paths captured before any mutation, each
populated from disk and validated, and the created count reported by the
run equals their number. -/
theorem C7_new_records (self : DataSource) (env : SyncEnv) (db : List DataFile)
    (npk : Nat) (fs : FileTree) (cnt : SyncCounts)
    (hfetch : env.fetched = some fs)
    (hfresh : ∀ df ∈ db, df.pk < npk)
    (hout : (self.sync env db npk).outcome = .finished cnt) :
    ((((self.sync env db npk).db.filter fun df : DataFile =>
        decide (npk ≤ df.pk)).map fun df : DataFile => df.path).toFinset
      = (self._walk fs).toFinset \
        (((self.datafiles db).map fun df : DataFile => df.path).toFinset)) ∧
    (∀ df ∈ (self.sync env db npk).db, npk ≤ df.pk →
      df.source = self.pk ∧ df.full_clean_ok = true ∧
      ∃ c, lookupFile fs df.path = some c ∧ df.hash = sha256hex c ∧
        df.size = c.length ∧ df.data = c) ∧
    cnt.created =
      ((self.sync env db npk).db.filter fun df : DataFile =>
        decide (npk ≤ df.pk)).length := by
  obtain ⟨hrdy, fs, hfs, rows, hcn, hsync, hcnt⟩ := sync_finished_inv hout
  rw [hfetch] at hfs
  injection hfs with hfs2
  subst hfs2
  have hdb : (self.sync env db npk).db =
      syncDb2 self fs env.now db ++ assignPks npk rows := by rw [hsync]
  have hfilter : ((syncDb2 self fs env.now db ++ assignPks npk rows).filter
      fun df : DataFile => decide (npk ≤ df.pk)) = assignPks npk rows := by
    rw [List.filter_append]
    have h1 : (syncDb2 self fs env.now db).filter
        (fun df : DataFile => decide (npk ≤ df.pk)) = [] := by
      rw [List.filter_eq_nil_iff]
      intro a ha
      have := syncDb2_pk_bound self fs env.now db npk hfresh a ha
      simp
      omega
    have h2 : (assignPks npk rows).filter
        (fun df : DataFile => decide (npk ≤ df.pk)) = assignPks npk rows := by
      rw [List.filter_eq_self]
      intro a ha
      have := (mem_assignPks ha).1
      simp
      omega
    rw [h1, h2, List.nil_append]
  have hmap := (createNew_ok_spec hcn).1
  have hpaths : ((assignPks npk rows).map fun r : DataFile => r.path) =
      syncNewPaths self fs db := by
    rw [assignPks_map_path, hmap]
  refine ⟨?_, ?_, ?_⟩
  · rw [hdb, hfilter, hpaths]
    apply Finset.ext
    intro a
    simp only [List.mem_toFinset, Finset.mem_sdiff, syncNewPaths, List.mem_filter,
      walk_with_status1]
    simp
  · intro df hdf hge
    rw [hdb, List.mem_append] at hdf
    cases hdf with
    | inl hleft =>
        have := syncDb2_pk_bound self fs env.now db npk hfresh df hleft
        omega
    | inr hmem =>
        obtain ⟨-, -, r0, hr0, hsrc0, hpath0, hhash0, hsize0, hdata0, -, -⟩ :=
          mem_assignPks hmem
        obtain ⟨hs0, -, -, hclean0, c, hc, hh0, hsz0, hd0⟩ :=
          (createNew_ok_spec hcn).2 r0 hr0
        refine ⟨by rw [hsrc0, hs0], ?_,
          c, by rw [hpath0]; exact hc, by rw [hhash0, hh0],
          by rw [hsize0, hsz0], by rw [hdata0, hd0]⟩
        simp only [DataFile.full_clean_ok, hhash0, hpath0]
        exact hclean0
  · rw [hcnt, hdb, hfilter, assignPks_length]

def exDb7 : List DataFile :=
  [{ pk := 0, source := 1, created := 0, last_updated := 0, path := "a.txt", size := 2, hash := "8f434346648f6b96df89dda901c5176b10a6d83961dd3c1ac88b59b2dc327aa4", data := [104, 105] }]

theorem C7_witness :
    (∀ df ∈ exDb7, df.pk < 1) ∧
    ((((exSrc.sync ⟨some exFs, 50⟩ exDb7 1).db.filter fun df : DataFile =>
        decide (1 ≤ df.pk)).map fun df : DataFile => df.path).toFinset
      = (exSrc._walk exFs).toFinset \
        (((exSrc.datafiles exDb7).map fun df : DataFile => df.path).toFinset)) :=
  ⟨by decide,
   (C7_new_records exSrc ⟨some exFs, 50⟩ exDb7 1 exFs ⟨0, 0, 1⟩ rfl (by decide)
     (by decide)).1⟩

/-- Claim C9: sync stores the on-disk bytes verbatim, so get_data on a
record written by the run equals the parse of the original file content,
for any decoder and any parser (in particular the UTF-8 decode followed
by the YAML load of the source). -/
theorem C9_yaml_roundtrip {α : Type} (decodeUtf8 : List Nat → Option String)
    (yamlSafeLoad : Option String → α) :
    (∀ (df0 df : DataFile) (fs : FileTree) (now : Nat) (c : List Nat),
      lookupFile fs df0.path = some c →
      df0.refresh_from_disk fs now = some (df, true) →
      df.get_data decodeUtf8 yamlSafeLoad = yamlSafeLoad (decodeUtf8 c)) ∧
    (∀ (self : DataSource) (env : SyncEnv) (db : List DataFile) (npk : Nat)
        (fs : FileTree) (cnt : SyncCounts),
      env.fetched = some fs →
      (∀ df ∈ db, df.pk < npk) →
      (self.sync env db npk).outcome = .finished cnt →
      ∀ df ∈ (self.sync env db npk).db, npk ≤ df.pk →
        ∃ c, lookupFile fs df.path = some c ∧
          df.get_data decodeUtf8 yamlSafeLoad = yamlSafeLoad (decodeUtf8 c)) := by
  constructor
  · intro df0 df fs now c hc hrefresh
    obtain ⟨-, -, -, -, -, c2, hc2, -, -, hdata⟩ := refresh_true_fields hrefresh
    rw [hc] at hc2
    injection hc2 with hc3
    rw [DataFile.get_data, DataFile.data_as_string, hdata, ← hc3]
  · intro self env db npk fs cnt hfetch hfresh hout df hdf hge
    obtain ⟨hrdy, fs2, hfs2, rows, hcn, hsync, hcnt⟩ := sync_finished_inv hout
    rw [hfetch] at hfs2
    injection hfs2 with hfs3
    subst hfs3
    have hdb : (self.sync env db npk).db =
        syncDb2 self fs env.now db ++ assignPks npk rows := by rw [hsync]
    rw [hdb, List.mem_append] at hdf
    cases hdf with
    | inl hleft =>
        have := syncDb2_pk_bound self fs env.now db npk hfresh df hleft
        omega
    | inr hmem =>
        obtain ⟨-, -, r0, hr0, -, hpath0, -, -, hdata0, -, -⟩ := mem_assignPks hmem
        obtain ⟨-, -, -, -, c, hc, -, -, hd0⟩ := (createNew_ok_spec hcn).2 r0 hr0
        refine ⟨c, by rw [hpath0]; exact hc, ?_⟩
        rw [DataFile.get_data, DataFile.data_as_string, hdata0, hd0]

theorem C9_witness :
    exDf4.refresh_from_disk exFs 7 =
      some ({exDf4 with last_updated := 7, size := 2, hash := "8f434346648f6b96df89dda901c5176b10a6d83961dd3c1ac88b59b2dc327aa4", data := [104, 105]}, true) ∧
    ({exDf4 with last_updated := 7, size := 2, hash := "8f434346648f6b96df89dda901c5176b10a6d83961dd3c1ac88b59b2dc327aa4", data := [104, 105]} : DataFile).get_data
      (fun bs => some (String.mk (bs.map Char.ofNat))) (fun o => o) = some "hi" := by
  have h1 : lookupFile exFs exDf4.path = some [104, 105] := by decide
  have h2 : exDf4.refresh_from_disk exFs 7 =
      some ({exDf4 with last_updated := 7, size := 2, hash := "8f434346648f6b96df89dda901c5176b10a6d83961dd3c1ac88b59b2dc327aa4", data := [104, 105]}, true) := by decide
  refine ⟨h2, ?_⟩
  have h3 := (C9_yaml_roundtrip (fun bs => some (String.mk (bs.map Char.ofNat)))
    (fun o => o)).1 exDf4 _ exFs 7 [104, 105] h1 h2
  rw [h3]
  decide

/-- The bulk update and bulk delete steps leave every row of another
source untouched, provided no staged update or deletion can collide
with such a row's pk. -/
theorem bulk_pipeline_other (pk : Nat) (ups : List DataFile) (dels : List Nat) :
    ∀ l : List DataFile,
      (∀ u ∈ ups, u.source = pk) →
      (∀ u ∈ ups, ∀ d ∈ l, d.source ≠ pk → u.pk ≠ d.pk) →
      (∀ i ∈ dels, ∀ d ∈ l, d.source ≠ pk → d.pk ≠ i) →
      ((bulk_delete (bulk_update l ups) dels).filter fun df : DataFile =>
        decide (df.source ≠ pk)) =
        l.filter fun df : DataFile => decide (df.source ≠ pk) := by
  intro l K3 K1 K2
  induction l with
  | nil => rfl
  | cons d t ih =>
      have K1' : ∀ u ∈ ups, ∀ x ∈ t, x.source ≠ pk → u.pk ≠ x.pk :=
        fun u hu x hx => K1 u hu x (List.mem_cons_of_mem _ hx)
      have K2' : ∀ i ∈ dels, ∀ x ∈ t, x.source ≠ pk → x.pk ≠ i :=
        fun i hi x hx => K2 i hi x (List.mem_cons_of_mem _ hx)
      have ih2 := ih K1' K2'
      have hstep : bulk_update (d :: t) ups =
          ((ups.find? fun u => decide (u.pk = d.pk)).getD d) :: bulk_update t ups := rfl
      rw [hstep, bulk_delete, List.filter_cons]
      by_cases hsrc : d.source = pk
      · have hxsrc : ((ups.find? fun u => decide (u.pk = d.pk)).getD d).source = pk := by
          cases hf : ups.find? fun u => decide (u.pk = d.pk) with
          | none => simpa using hsrc
          | some u => simpa using K3 u (List.mem_of_find?_eq_some hf)
        by_cases hdel : ((ups.find? fun u => decide (u.pk = d.pk)).getD d).pk ∉ dels
        · rw [if_pos (by simpa using hdel), List.filter_cons]
          rw [if_neg (by simp [hxsrc])]
          rw [← bulk_delete] at *
          rw [ih2, List.filter_cons, if_neg (by simp [hsrc])]
        · rw [if_neg (by simpa using hdel)]
          rw [← bulk_delete] at *
          rw [ih2, List.filter_cons, if_neg (by simp [hsrc])]
      · have hfind : (ups.find? fun u => decide (u.pk = d.pk)) = none := by
          rw [List.find?_eq_none]
          intro u hu
          simp only [decide_eq_true_eq]
          exact K1 u hu d (List.mem_cons_self _ _) hsrc
        rw [hfind]
        have hnotdel : d.pk ∉ dels := by
          intro hcon
          exact K2 d.pk hcon d (List.mem_cons_self _ _) hsrc rfl
        rw [if_pos (by simpa using hnotdel), List.filter_cons,
          if_pos (by simp [hsrc])]
        rw [← bulk_delete] at *
        rw [ih2, List.filter_cons, if_pos (by simp [hsrc])]
        rfl

/-- Claim C10: a successful sync changes only the status and last_synced
fields of the source, and rows of other sources are untouched; every
row it adds belongs to the synced source. -/
theorem C10_frame (self : DataSource) (env : SyncEnv) (db : List DataFile)
    (npk : Nat) (cnt : SyncCounts) (hnd : pksNodup db)
    (hout : (self.sync env db npk).outcome = .finished cnt) :
    (self.sync env db npk).source =
      {self with status := DSStatus.completed, last_synced := some env.now} ∧
    ((self.sync env db npk).db.filter fun df : DataFile => decide (df.source ≠ self.pk))
      = (db.filter fun df : DataFile => decide (df.source ≠ self.pk)) ∧
    (∀ df ∈ (self.sync env db npk).db, df ∉ db → df.source = self.pk) := by
  obtain ⟨hrdy, fs, hfs, rows, hcn, hsync, hcnt⟩ := sync_finished_inv hout
  have hsource : (self.sync env db npk).source =
      {self with status := DSStatus.completed, last_synced := some env.now} := by
    rw [hsync]
  have hdb : (self.sync env db npk).db =
      syncDb2 self fs env.now db ++ assignPks npk rows := by rw [hsync]
  have K3 : ∀ u ∈ syncUps self fs env.now db, u.source = self.pk := by
    intro u hu
    rw [syncUps] at hu
    obtain ⟨orig, horig, hrefresh⟩ := stageChanges_ups_spec u hu
    obtain ⟨-, husrc, -⟩ := refresh_true_fields hrefresh
    rw [husrc]
    exact (mem_datafiles.mp horig).2
  have K1 : ∀ u ∈ syncUps self fs env.now db, ∀ d ∈ db, d.source ≠ self.pk →
      u.pk ≠ d.pk := by
    intro u hu d hd hds hcon
    rw [syncUps] at hu
    obtain ⟨orig, horig, hrefresh⟩ := stageChanges_ups_spec u hu
    obtain ⟨hupk, -⟩ := refresh_true_fields hrefresh
    have : orig = d :=
      db_pk_inj hnd orig (mem_datafiles.mp horig).1 d hd (by rw [← hupk, hcon])
    subst this
    exact hds (mem_datafiles.mp horig).2
  have K2 : ∀ i ∈ syncDels self fs env.now db, ∀ d ∈ db, d.source ≠ self.pk →
      d.pk ≠ i := by
    intro i hi d hd hds hcon
    rw [syncDels] at hi
    obtain ⟨d2, hd2, hd2pk, -⟩ := stageChanges_dels_spec i hi
    have : d2 = d :=
      db_pk_inj hnd d2 (mem_datafiles.mp hd2).1 d hd (by rw [hd2pk, hcon])
    subst this
    exact hds (mem_datafiles.mp hd2).2
  have hcreated_src : ∀ x ∈ assignPks npk rows, x.source = self.pk := by
    intro x hx
    obtain ⟨-, -, r0, hr0, hsrc0, -⟩ := mem_assignPks hx
    rw [hsrc0]
    exact ((createNew_ok_spec hcn).2 r0 hr0).1
  refine ⟨hsource, ?_, ?_⟩
  · rw [hdb, List.filter_append]
    have h1 : ((assignPks npk rows).filter fun df : DataFile =>
        decide (df.source ≠ self.pk)) = [] := by
      rw [List.filter_eq_nil_iff]
      intro a ha
      simp [hcreated_src a ha]
    have h2 : ((syncDb2 self fs env.now db).filter fun df : DataFile =>
        decide (df.source ≠ self.pk)) =
        db.filter fun df : DataFile => decide (df.source ≠ self.pk) := by
      rw [syncDb2]
      exact bulk_pipeline_other self.pk (syncUps self fs env.now db)
        (syncDels self fs env.now db) db K3 K1 K2
    rw [h1, h2, List.append_nil]
  · intro df hdf hnot
    rw [hdb, List.mem_append] at hdf
    cases hdf with
    | inr hmem => exact hcreated_src df hmem
    | inl hleft =>
        rw [syncDb2, mem_bulk_delete] at hleft
        obtain ⟨d2, hd2, -, hcase⟩ := mem_bulk_update hleft.1
        cases hcase with
        | inl hl => exact absurd (hl.1 ▸ hd2) hnot
        | inr hups => exact K3 df hups

def exDb10 : List DataFile :=
  [{ pk := 0, source := 2, created := 0, last_updated := 0, path := "z.txt", size := 1, hash := "aa", data := [9] }]

theorem C10_witness :
    pksNodup exDb10 ∧
    (exSrc.sync ⟨some exFs, 60⟩ exDb10 5).source =
      {exSrc with status := DSStatus.completed, last_synced := some 60} ∧
    ((exSrc.sync ⟨some exFs, 60⟩ exDb10 5).db.filter fun df : DataFile =>
      decide (df.source ≠ exSrc.pk)) =
      (exDb10.filter fun df : DataFile => decide (df.source ≠ exSrc.pk)) := by
  have hout : (exSrc.sync ⟨some exFs, 60⟩ exDb10 5).outcome = .finished ⟨0, 0, 2⟩ := by
    decide
  have h := C10_frame exSrc ⟨some exFs, 60⟩ exDb10 5 ⟨0, 0, 2⟩
    (by unfold pksNodup; decide) hout
  exact ⟨by unfold pksNodup; decide, h.1, h.2.1⟩

/-- After the update and delete steps, the paths of the source's rows
form a sublist of the source's paths before the run, provided each
staged replacement keeps the pk, path and source of the row it
replaces. -/
theorem bulk_pipeline_source_paths (pk : Nat) (ups : List DataFile) (dels : List Nat) :
    ∀ l : List DataFile,
      (∀ d ∈ l, ((ups.find? fun u => decide (u.pk = d.pk)).getD d).path = d.path ∧
                ((ups.find? fun u => decide (u.pk = d.pk)).getD d).source = d.source) →
      (((bulk_delete (bulk_update l ups) dels).filter fun df : DataFile =>
          decide (df.source = pk)).map fun df : DataFile => df.path).Sublist
        ((l.filter fun df : DataFile => decide (df.source = pk)).map
          fun df : DataFile => df.path) := by
  intro l Hpt
  induction l with
  | nil => exact List.Sublist.refl _
  | cons d t ih =>
      have ih2 := ih fun x hx => Hpt x (List.mem_cons_of_mem _ hx)
      obtain ⟨hxpath, hxsrc⟩ := Hpt d (List.mem_cons_self _ _)
      have hstep : bulk_update (d :: t) ups =
          ((ups.find? fun u => decide (u.pk = d.pk)).getD d) :: bulk_update t ups := rfl
      rw [hstep, bulk_delete, List.filter_cons]
      by_cases hdel :
          ((ups.find? fun u => decide (u.pk = d.pk)).getD d).pk ∉ dels
      · rw [if_pos (by simpa using hdel), List.filter_cons]
        by_cases hsrc : d.source = pk
        · rw [if_pos (by simp [hxsrc, hsrc])]
          rw [← bulk_delete] at *
          rw [List.map_cons, List.filter_cons, if_pos (by simp [hsrc]),
            List.map_cons, hxpath]
          exact List.Sublist.cons₂ _ ih2
        · rw [if_neg (by simp [hxsrc, hsrc])]
          rw [← bulk_delete] at *
          rw [List.filter_cons, if_neg (by simp [hsrc])]
          exact ih2
      · rw [if_neg (by simpa using hdel)]
        rw [← bulk_delete] at *
        by_cases hsrc : d.source = pk
        · rw [List.filter_cons, if_pos (by simp [hsrc]), List.map_cons]
          exact List.Sublist.cons _ ih2
        · rw [List.filter_cons, if_neg (by simp [hsrc])]
          exact ih2

/-- Claim C8: after a successful sync, assuming the pre-run rows of the
source satisfied the stored invariants, every row of the source stores
the digest of its own content as its hash, its size is the content's
byte length, the hash is 64 lowercase hexadecimal characters, and no two
rows of the source share a path. -/
theorem C8_invariants (self : DataSource) (env : SyncEnv) (db : List DataFile)
    (npk : Nat) (cnt : SyncCounts)
    (hnd : pksNodup db)
    (hinv : ∀ df ∈ db, df.source = self.pk →
      df.hash = sha256hex df.data ∧ df.size = df.data.length)
    (hpaths : (((self.datafiles db)).map fun df : DataFile => df.path).Nodup)
    (hout : (self.sync env db npk).outcome = .finished cnt) :
    (∀ df ∈ (self.sync env db npk).db, df.source = self.pk →
      df.hash = sha256hex df.data ∧ df.size = df.data.length ∧
      hashValid df.hash = true) ∧
    ((((self.sync env db npk).db.filter fun df : DataFile =>
        decide (df.source = self.pk)).map fun df : DataFile => df.path).Nodup) := by
  obtain ⟨hrdy, fs, hfs, rows, hcn, hsync, hcnt⟩ := sync_finished_inv hout
  have hdb : (self.sync env db npk).db =
      syncDb2 self fs env.now db ++ assignPks npk rows := by rw [hsync]
  have hinj : ∀ a ∈ self.datafiles db, ∀ b ∈ self.datafiles db, a.pk = b.pk → a = b := by
    intro a ha b hb hab
    exact db_pk_inj hnd a (mem_datafiles.mp ha).1 b (mem_datafiles.mp hb).1 hab
  constructor
  · intro df hdf hsrc
    rw [hdb, List.mem_append] at hdf
    cases hdf with
    | inr hmem =>
        obtain ⟨-, -, r0, hr0, -, -, hhash0, hsize0, hdata0, -, -⟩ := mem_assignPks hmem
        obtain ⟨-, -, -, -, c, -, hh0, hsz0, hd0⟩ := (createNew_ok_spec hcn).2 r0 hr0
        refine ⟨by rw [hhash0, hh0, hdata0, hd0], by rw [hsize0, hsz0, hdata0, hd0], ?_⟩
        rw [hhash0, hh0]
        exact hashValid_sha256hex c
    | inl hleft =>
        rw [syncDb2, mem_bulk_delete] at hleft
        obtain ⟨d2, hd2, -, hcase⟩ := mem_bulk_update hleft.1
        cases hcase with
        | inr hups =>
            rw [syncUps] at hups
            obtain ⟨orig, -, hrefresh⟩ := stageChanges_ups_spec df hups
            obtain ⟨-, -, hpath, -, -, c, -, hh, hsz, hdt⟩ := refresh_true_fields hrefresh
            refine ⟨by rw [hh, hdt], by rw [hsz, hdt], ?_⟩
            rw [hh]
            exact hashValid_sha256hex c
        | inl hl =>
            obtain ⟨hxeq, -⟩ := hl
            subst hxeq
            obtain ⟨hh, hsz⟩ := hinv df hd2 hsrc
            refine ⟨hh, hsz, ?_⟩
            rw [hh]
            exact hashValid_sha256hex df.data
  · have Hpt : ∀ d ∈ db,
        (((syncUps self fs env.now db).find? fun u => decide (u.pk = d.pk)).getD d).path
          = d.path ∧
        (((syncUps self fs env.now db).find? fun u => decide (u.pk = d.pk)).getD d).source
          = d.source := by
      intro d hd
      cases hf : (syncUps self fs env.now db).find? fun u => decide (u.pk = d.pk) with
      | none => exact ⟨rfl, rfl⟩
      | some u =>
          have hupk : u.pk = d.pk := by
            have := List.find?_some hf
            simpa using this
          have humem : u ∈ syncUps self fs env.now db := List.mem_of_find?_eq_some hf
          rw [syncUps] at humem
          obtain ⟨orig, horig, hrefresh⟩ := stageChanges_ups_spec u humem
          obtain ⟨hupk2, husrc, hupath, -⟩ := refresh_true_fields hrefresh
          by_cases hdsrc : d ∈ self.datafiles db
          · have : orig = d := hinj orig horig d hdsrc (by rw [← hupk2, hupk])
            subst this
            exact ⟨by simpa using hupath, by simpa using husrc⟩
          · exfalso
            have horigdb : orig ∈ db := (mem_datafiles.mp horig).1
            have : orig = d := db_pk_inj hnd orig horigdb d hd (by rw [← hupk2, hupk])
            subst this
            exact hdsrc horig
    have hsub := bulk_pipeline_source_paths self.pk (syncUps self fs env.now db)
      (syncDels self fs env.now db) db Hpt
    have hkept : (((syncDb2 self fs env.now db).filter fun df : DataFile =>
        decide (df.source = self.pk)).map fun df : DataFile => df.path).Nodup := by
      rw [syncDb2]
      exact hsub.nodup (by simpa [DataSource.datafiles] using hpaths)
    have hmap := (createNew_ok_spec hcn).1
    have hnewpaths : ((assignPks npk rows).map fun r : DataFile => r.path) =
        syncNewPaths self fs db := by
      rw [assignPks_map_path, hmap]
    have hnew_nodup : (syncNewPaths self fs db).Nodup := by
      rw [syncNewPaths, DataSource._walk]
      exact (List.nodup_dedup _).filter _
    have hcreated_src : ∀ x ∈ assignPks npk rows, x.source = self.pk := by
      intro x hx
      obtain ⟨-, -, r0, hr0, hsrc0, -⟩ := mem_assignPks hx
      rw [hsrc0]
      exact ((createNew_ok_spec hcn).2 r0 hr0).1
    rw [hdb, List.filter_append, List.map_append]
    rw [List.nodup_append]
    refine ⟨hkept, ?_, ?_⟩
    · have : ((assignPks npk rows).filter fun df : DataFile =>
          decide (df.source = self.pk)) = assignPks npk rows := by
        rw [List.filter_eq_self]
        intro a ha
        simp [hcreated_src a ha]
      rw [this, hnewpaths]
      exact hnew_nodup
    · intro a ha hb
      have hfilterassign : ((assignPks npk rows).filter fun df : DataFile =>
          decide (df.source = self.pk)) = assignPks npk rows := by
        rw [List.filter_eq_self]
        intro x hx
        simp [hcreated_src x hx]
      rw [hfilterassign, hnewpaths, syncNewPaths, List.mem_filter] at hb
      have hknown : a ∈ (self.datafiles db).map fun df : DataFile => df.path := by
        rw [syncDb2] at ha
        have := hsub.subset ha
        simpa [DataSource.datafiles] using this
      exact (of_decide_eq_true hb.2) hknown

theorem C8_witness :
    pksNodup exDb7 ∧
    (∀ df ∈ (exSrc.sync ⟨some exFs, 70⟩ exDb7 1).db, df.source = exSrc.pk →
      df.hash = sha256hex df.data ∧ df.size = df.data.length ∧
      hashValid df.hash = true) ∧
    ((((exSrc.sync ⟨some exFs, 70⟩ exDb7 1).db.filter fun df : DataFile =>
        decide (df.source = exSrc.pk)).map fun df : DataFile => df.path).Nodup) := by
  have hout : (exSrc.sync ⟨some exFs, 70⟩ exDb7 1).outcome = .finished ⟨0, 0, 1⟩ := by
    decide
  have h := C8_invariants exSrc ⟨some exFs, 70⟩ exDb7 1 ⟨0, 0, 1⟩
    (by unfold pksNodup; decide) (by decide) (by decide) hout
  exact ⟨by unfold pksNodup; decide, h.1, h.2⟩

/-- Claim C3: a second sync over an unchanged replica stages no update,
no deletion and no creation, leaves the table and the pk counter
untouched, and still advances last_synced to the second run's clock. -/
theorem C3_idempotent (self : DataSource) (db : List DataFile) (npk : Nat)
    (fs : FileTree) (now1 now2 : Nat) (cnt : SyncCounts)
    (hwf : FileTree.wf fs = true) (hnd : pksNodup db)
    (hout : (self.sync ⟨some fs, now1⟩ db npk).outcome = .finished cnt) :
    (self.sync ⟨some fs, now1⟩ db npk).source.sync ⟨some fs, now2⟩
        (self.sync ⟨some fs, now1⟩ db npk).db
        (self.sync ⟨some fs, now1⟩ db npk).nextPk =
      ⟨{self with status := DSStatus.completed, last_synced := some now2},
       (self.sync ⟨some fs, now1⟩ db npk).db,
       (self.sync ⟨some fs, now1⟩ db npk).nextPk,
       [.preSync, .postSync], .finished ⟨0, 0, 0⟩⟩ := by
  obtain ⟨hrdy, fs2, hfs2, rows, hcn, hsync, hcnt⟩ := sync_finished_inv hout
  have hfs3 : fs = fs2 := by
    have h0 : (some fs : Option FileTree) = some fs2 := hfs2
    injection h0
  subst hfs3
  set S : DataSource := {self with status := DSStatus.completed, last_synced := some now1} with hS
  set D : List DataFile := syncDb2 self fs now1 db ++ assignPks npk rows with hD
  have hsrc1 : (self.sync ⟨some fs, now1⟩ db npk).source = S := by rw [hsync]
  have hdb1 : (self.sync ⟨some fs, now1⟩ db npk).db = D := by rw [hsync]
  have hnpk1 : (self.sync ⟨some fs, now1⟩ db npk).nextPk = npk + rows.length := by
    rw [hsync]
  have hsynced := postRowsSynced self fs db npk rows now1 hcn
  have hcover := postWalkCovered self fs db npk rows now1 hwf hnd hcn
  have hready2 : S.ready_for_sync = true := by
    rw [hS, ready_completed]
    exact ready_enabled hrdy
  have hstage2 : stageChanges fs now2 (S.datafiles D) = ([], []) := by
    apply stageChanges_of_rowSynced
    intro d hd
    have hd2 := mem_datafiles.mp hd
    exact hsynced d hd2.1 hd2.2
  have hups2 : syncUps S fs now2 D = [] := by rw [syncUps, hstage2]
  have hdels2 : syncDels S fs now2 D = [] := by rw [syncDels, hstage2]
  have hdb2run2 : syncDb2 S fs now2 D = D := by
    rw [syncDb2, hups2, hdels2, bulk_update_nil, bulk_delete_nil]
  have hnew2 : syncNewPaths S fs D = [] := by
    rw [syncNewPaths, List.filter_eq_nil_iff]
    intro p hp
    rw [walk_with_status1, hS, walk_with_status] at hp
    obtain ⟨x, hxD, hxsrc, hxp⟩ := hcover p hp
    have hmem : p ∈ (S.datafiles D).map fun df : DataFile => df.path := by
      rw [List.mem_map]
      exact ⟨x, mem_datafiles.mpr ⟨hxD, hxsrc⟩, hxp⟩
    simp [hmem]
  have hcn2 : createNew fs now2 S.pk (syncNewPaths S fs D) = .ok [] := by
    rw [hnew2]
    rfl
  have hfinal := sync_ready_ok S ⟨some fs, now2⟩ D (npk + rows.length) fs []
    hready2 rfl hcn2
  rw [hsrc1, hdb1, hnpk1, hfinal]
  rw [hdb2run2, hups2]
  simp [bulk_update_nil, assignPks, Nat.sub_self, hS]

theorem C3_witness :
    FileTree.wf exFs = true ∧
    (exSrc.sync ⟨some exFs, 100⟩ exDb7 1).source.sync ⟨some exFs, 200⟩
        (exSrc.sync ⟨some exFs, 100⟩ exDb7 1).db
        (exSrc.sync ⟨some exFs, 100⟩ exDb7 1).nextPk =
      ⟨{exSrc with status := DSStatus.completed, last_synced := some 200},
       (exSrc.sync ⟨some exFs, 100⟩ exDb7 1).db,
       (exSrc.sync ⟨some exFs, 100⟩ exDb7 1).nextPk,
       [.preSync, .postSync], .finished ⟨0, 0, 0⟩⟩ :=
  ⟨by decide,
   C3_idempotent exSrc exDb7 1 exFs 100 200 ⟨0, 0, 1⟩ (by decide)
     (by unfold pksNodup; decide) (by decide)⟩
